import Mathlib

/-!
Shallow embedding of the FreebiesBot pipeline (src/main.js): state store,
identity resolver, change filter, source-adapter selection logic, formatter
and delivery batcher, together with theorems settling the specification
claims about them.

Platform builtins (JSON.parse / JSON.stringify, Number, the HTTP client,
the filesystem) are modelled abstractly at their value level: a file read
yields either a failure or an already-parsed JSON tree, and JS number
conversion yields either NaN or a rational.
-/

set_option autoImplicit false

namespace FreebiesBot

/-! ### JSON values (the shape JSON.parse produces) -/

/-- A parsed JSON value.  Object fields keep their insertion order; a JS
object obtained from JSON.parse has no duplicate keys (last occurrence
wins during parsing), which `jlookup` mirrors by searching from the right. -/
inductive Json where
  | jnull : Json
  | jbool : Bool → Json
  | jnum : Int → Json
  | jstr : String → Json
  | jarr : List Json → Json
  | jobj : List (String × Json) → Json

/-- Property access `o.f` on a parsed JS value: objects yield the field
(last duplicate wins, as after JSON.parse), everything else — including
arrays without that index name — yields `undefined` (`none`). -/
def jlookup (j : Json) (field : String) : Option Json :=
  match j with
  | Json.jobj fields =>
    match fields.reverse.find? (fun p => p.1 == field) with
    | some p => some p.2
    | none => none
  | _ => none

/-- JS truthiness of a parsed JSON value. -/
def js_truthy : Json → Bool
  | Json.jnull => false
  | Json.jbool b => b
  | Json.jnum n => n != 0
  | Json.jstr s => s != ""
  | Json.jarr _ => true
  | Json.jobj _ => true

/-- `typeof v === 'object'` for a parsed JSON value: true for objects,
arrays and `null` (a JS quirk), false for the primitives. -/
def js_typeof_object : Json → Bool
  | Json.jnull => true
  | Json.jarr _ => true
  | Json.jobj _ => true
  | _ => false

/-- `typeof v === 'object'` for a possibly-undefined value: `undefined`
has typeof 'undefined'. -/
def js_typeof_object_opt : Option Json → Bool
  | some j => js_typeof_object j
  | none => false

/-! ### State store (`load_state` / `save_state`, src/main.js:29-48) -/

/-- What reading the state file can yield: the file is absent, reading it
throws, or it has content whose JSON.parse result is `none` (parse threw)
or the parsed value. -/
inductive FileRead where
  | missing : FileRead
  | readError : FileRead
  | content : Option Json → FileRead

/-- The state value `load_state` falls back to: `\x7b notified_keys: \x7b\x7d \x7d`. -/
def empty_state : Json := Json.jobj [("notified_keys", Json.jobj [])]

/-- `load_state` (src/main.js:29-40): if the file exists and reads and
parses, and the parsed value is truthy, of object type, and its
`notified_keys` field is of object type, return the parsed value;
otherwise (including when anything threw) return the empty state. -/
def load_state (r : FileRead) : Json :=
  match r with
  | FileRead.content (some parsed) =>
    if js_truthy parsed && js_typeof_object parsed
        && js_typeof_object_opt (jlookup parsed "notified_keys") then
      parsed
    else
      empty_state
  | _ => empty_state

/-- A well-formed persisted mapping: dedup key ↦ `notified_at` timestamp. -/
abbrev StateMap := List (String × String)

/-- The JSON document `save_state` writes for a well-formed mapping
(src/main.js:42-48): each record is an object with one `notified_at`
string field.  JSON.stringify followed by JSON.parse is the identity on
this tree, so a successful save followed by a read yields it back. -/
def encode_state (m : StateMap) : Json :=
  Json.jobj [("notified_keys",
    Json.jobj (m.map (fun p => (p.1, Json.jobj [("notified_at", Json.jstr p.2)]))))]

/-- `save_state` on a well-formed mapping, composed with the platform
round trip: a successful write leaves the file holding the serialized
state, which the next read parses back to the same tree. -/
def save_state (m : StateMap) : FileRead :=
  FileRead.content (some (encode_state m))

/-! ### Identity resolver (`derive_item_key`, src/main.js:50-56) -/

/-- One normalized freebie item (the common shape both adapters emit). -/
structure Item where
  source : String
  title : String
  url : String
  image_url : Option String
  price_text : String
  ends_at : Option Int
deriving Repr, DecidableEq

/-- One attempted match of `/\\/app\\/(\\d+)/` at the current position:
succeed when the next five characters are `/app/` and at least one digit
follows, capturing the maximal digit run. -/
def match_app_at (l : List Char) : Option (List Char) :=
  if l.take 5 = ['/', 'a', 'p', 'p', '/'] then
    if ((l.drop 5).takeWhile Char.isDigit).isEmpty then none
    else some ((l.drop 5).takeWhile Char.isDigit)
  else none

/-- The regex `/\\/app\\/(\\d+)/` over a character list: find the leftmost
position where `/app/` is followed by at least one digit, and capture the
maximal digit run there. -/
def extract_app_id_aux : List Char → Option (List Char)
  | [] => none
  | c :: rest =>
    match match_app_at (c :: rest) with
    | some ds => some ds
    | none => extract_app_id_aux rest

/-- `/\\/app\\/(\\d+)/.exec(url)`, returning the captured digit group. -/
def extract_app_id (url : String) : Option String :=
  (extract_app_id_aux url.data).map List.asString

/-- `derive_item_key` (src/main.js:50-56): Steam items with an embedded
`/app/<digits>` id key as `steam_app_<id>`; everything else keys as
`<source>:<url>`. -/
def derive_item_key (item : Item) : String :=
  if item.source == "Steam" then
    match extract_app_id item.url with
    | some id => "steam_app_" ++ id
    | none => item.source ++ ":" ++ item.url
  else
    item.source ++ ":" ++ item.url

/-! ### Change filter (`filter_new_items`, src/main.js:58-67) -/

/-- An item tagged with its resolved dedup key (the `\x7b ...item,
internal_key: key \x7d` spread in the source). -/
structure TaggedItem where
  item : Item
  internal_key : String
deriving Repr, DecidableEq

/-- Truthiness of `state.notified_keys[key]` on a well-formed mapping:
present records are objects, hence truthy; absent keys are undefined. -/
def state_has (m : StateMap) (key : String) : Bool :=
  m.any (fun p => p.1 == key)

/-- `filter_new_items` (src/main.js:58-67): keep, in order, the items
whose derived key is not yet in the state, tagging each with its key. -/
def filter_new_items (items : List Item) (m : StateMap) : List TaggedItem :=
  match items with
  | [] => []
  | item :: rest =>
    let key := derive_item_key item
    if state_has m key then
      filter_new_items rest m
    else
      ⟨item, key⟩ :: filter_new_items rest m

/-! ### Chunking (`chunk_array`, src/main.js:20-26) -/

/-- The loop of `chunk_array` with explicit fuel.  When `0 < size` every
iteration on a non-empty list consumes at least one element, so fuel equal
to the input length runs the loop to completion. -/
def chunk_loop {α : Type} (size : Nat) : Nat → List α → List (List α)
  | _, [] => []
  | 0, _ :: _ => []
  | fuel + 1, x :: xs => (x :: xs).take size :: chunk_loop size fuel ((x :: xs).drop size)

/-- `chunk_array` (src/main.js:20-26): successive slices of `size`
elements.  The source loop never advances when `size = 0` (it is only
ever called with 10); that case is mapped to `[]` here. -/
def chunk_array {α : Type} (input : List α) (size : Nat) : List (List α) :=
  if size = 0 then [] else chunk_loop size input.length input

/-! ### Feed adapter selection (`fetch_epic_freebies`, src/main.js:75-155) -/

/-- One promotional window (`promotionalOffers[i].promotionalOffers[j]`).
Dates are modelled at the millisecond level after `new Date(...)`: `none`
is an absent/falsy date string.  `discountPercentage` is the value after
JS `Number` conversion: `none` models an absent field (NaN). -/
structure PromoWindow where
  startDate : Option Int
  endDate : Option Int
  discountPercentage : Option Int
deriving Repr, DecidableEq

/-- One `catalogNs.mappings` entry; an absent `pageSlug` is the empty
(falsy) string. -/
structure Mapping where
  pageType : String
  pageSlug : String
deriving Repr, DecidableEq

/-- One `keyImages` entry; an absent `url` is the empty (falsy) string. -/
structure KeyImage where
  type : String
  url : String
deriving Repr, DecidableEq

/-- One offer from the promotions feed.  `promotionalOffers` is the nested
`promotions.promotionalOffers[i].promotionalOffers` structure; a missing
`promotions` object or non-array field is the empty list. -/
structure Offer where
  title : String
  productSlug : String
  mappings : List Mapping
  keyImages : List KeyImage
  promotionalOffers : List (List PromoWindow)
deriving Repr, DecidableEq

/-- The predicate of the `current.find(...)` call (src/main.js:102-107):
both dates present, `start ≤ now < end`, and the discount converts to
exactly 0. -/
def is_active_zero (now : Int) (p : PromoWindow) : Bool :=
  match p.startDate, p.endDate with
  | some s, some e => s ≤ now && now < e && p.discountPercentage == some 0
  | _, _ => false

/-- Whether some window of the offer is active with a 0 discount. -/
def has_active_zero (o : Offer) (now : Int) : Bool :=
  (o.promotionalOffers.flatMap id).any (is_active_zero now)

/-- Page-slug resolution (src/main.js:111-118): a truthy `productSlug`
starting with `p/` loses that lead; otherwise the first `productHome`
mapping with a truthy slug is used.  The subsequent `if (!pageSlug)
continue` then also rejects a falsy result — `pageSlug` still `null`, or
the empty string a `productSlug` of exactly `p/` strips down to. -/
def resolve_page_slug (o : Offer) : Option String :=
  let pageSlug : Option String :=
    if o.productSlug != "" && o.productSlug.data.take 2 == ['p', '/'] then
      some (o.productSlug.data.drop 2).asString
    else
      match o.mappings.find? (fun m => m.pageType == "productHome" && m.pageSlug != "") with
      | some m => some m.pageSlug
      | none => none
  match pageSlug with
  | some s => if s == "" then none else some s
  | none => none

/-- Walk the prioritized image-type list, returning the first key image
whose type matches and whose url is truthy (src/main.js:121-131). -/
def find_preferred_image : List String → List KeyImage → Option String
  | [], _ => none
  | t :: ts, imgs =>
    match imgs.find? (fun k => k.type == t && k.url != "") with
    | some k => some k.url
    | none => find_preferred_image ts imgs

/-- Full image choice (src/main.js:121-135): preferred types first, then
any non-thumbnail with a truthy url, then the first image's url, else
null. -/
def pick_image (imgs : List KeyImage) : Option String :=
  match find_preferred_image
      ["DieselStoreFrontWide", "OfferImageWide", "OfferImageTall", "DieselStoreFrontTall"]
      imgs with
  | some u => some u
  | none =>
    match imgs.find? (fun k => k.type != "Thumbnail" && k.url != "") with
    | some k => some k.url
    | none =>
      match imgs with
      | [] => none
      | k :: _ => if k.url == "" then none else some k.url

/-- The body of the offer loop (src/main.js:91-147) for one offer:
`none` when the offer is skipped (`continue`), `some item` when it is
pushed onto `results`. -/
def process_offer (now : Int) (o : Offer) : Option Item :=
  match (o.promotionalOffers.flatMap id).find? (is_active_zero now) with
  | none => none
  | some active =>
    match resolve_page_slug o with
    | none => none
    | some slug =>
      some
        { source := "Epic Games"
          title := if o.title == "" then "Unknown Title" else o.title
          url := "https://store.epicgames.com/en-US/p/" ++ slug
          image_url := pick_image o.keyImages
          price_text := "Free"
          ends_at := active.endDate }

/-- One `Map.set` step of `new Map(results.map(r => [r.url, r]))`:
insertion order keeps the first occurrence's position, the value is
overwritten by the later occurrence. -/
def map_insert (m : List (String × Item)) (k : String) (v : Item) : List (String × Item) :=
  if m.any (fun p => p.1 == k) then
    m.map (fun p => if p.1 == k then (p.1, v) else p)
  else
    m ++ [(k, v)]

/-- `fetch_epic_freebies` (src/main.js:75-155) after the HTTP and JSON
layers: the per-offer selection over the parsed offers, deduplicated by
resolved url (last seen wins). -/
def fetch_epic_freebies (offers : List Offer) (now : Int) : List Item :=
  let results := offers.filterMap (process_offer now)
  (results.foldl (fun m r => map_insert m r.url r) []).map (fun p => p.2)

/-! ### Notification formatter (`build_discord_embeds`, src/main.js:187-214) -/

/-- `Math.floor(date.getTime() / 1000)` on a millisecond timestamp. -/
def to_unix_seconds (ms : Int) : Int :=
  Int.fdiv ms 1000

structure EmbedField where
  name : String
  value : String
  inline : Bool
deriving Repr, DecidableEq

structure Embed where
  title : String
  url : String
  color : Nat
  footer : String
  fields : List EmbedField
  image : Option String
  thumbnail : Option String
deriving Repr, DecidableEq

/-- `build_discord_embeds` (src/main.js:187-214) over the tagged items the
filter produced: one embed per item, an `Ends` field only for a valid
expiry, source-dependent color and image placement. -/
def build_discord_embeds (items : List TaggedItem) : List Embed :=
  items.map (fun t =>
    let it := t.item
    let priceField : EmbedField :=
      ⟨"Price", if it.price_text == "" then "Free" else it.price_text, false⟩
    let fields : List EmbedField :=
      match it.ends_at with
      | some ms =>
        [priceField,
         ⟨"Ends",
          "<t:" ++ toString (to_unix_seconds ms) ++ ":F> (<t:"
            ++ toString (to_unix_seconds ms) ++ ":R>)",
          false⟩]
      | none => [priceField]
    let base : Embed :=
      { title := it.title
        url := it.url
        color := if it.source == "Epic Games" then 16753920 else 3447003
        footer := it.source
        fields := fields
        image := none
        thumbnail := none }
    match it.image_url with
    | some u =>
      if u == "" then base
      else if it.source == "Epic Games" then { base with image := some u }
      else { base with thumbnail := some u }
    | none => base)

/-! ### Delivery batcher (`send_discord_embeds`, src/main.js:217-235) -/

/-- The JSON body of one webhook POST. -/
structure Payload (α : Type) where
  embeds : List α
  content : Option String
  allowed_mentions : Option (List String)
deriving Repr, DecidableEq

/-- JS truthiness of an optional string (an unset env var is `none`). -/
def js_truthy_str : Option String → Bool
  | none => false
  | some s => s != ""

/-- The body built for batch `i` (src/main.js:225-229): the mention
content and allowed-mentions fields are attached only when a truthy
mention id is configured and `i = 0`. -/
def mk_payload {α : Type} (batch : List α) (mention : Option String) (i : Nat) : Payload α :=
  match mention with
  | some r =>
    if r != "" && i == 0 then
      ⟨batch, some ("<@&" ++ r ++ ">"), some [r]⟩
    else
      ⟨batch, none, none⟩
  | none => ⟨batch, none, none⟩

/-- The batch loop (src/main.js:223-232).  `fails i` models the POST for
batch `i` throwing; the thrown error carries no count, and the
`Except.error` payload records the local `delivered` counter at the
moment of the throw.  Returns the POSTs attempted (the failing one
included) and the outcome. -/
def send_loop {α : Type} (batches : List (List α)) (mention : Option String)
    (fails : Nat → Bool) (i : Nat) (delivered : Nat) :
    List (Payload α) × Except Nat Nat :=
  match batches with
  | [] => ([], Except.ok delivered)
  | b :: rest =>
    let p := mk_payload b mention i
    if fails i then
      ([p], Except.error delivered)
    else
      let r := send_loop rest mention fails (i + 1) (delivered + b.length)
      (p :: r.1, r.2)

/-- `send_discord_embeds` (src/main.js:217-235): early return with 0 on an
empty list, otherwise the sequential batch loop over chunks of 10. -/
def send_discord_embeds {α : Type} (embeds : List α) (mention : Option String)
    (fails : Nat → Bool) : List (Payload α) × Except Nat Nat :=
  if embeds.isEmpty then ([], Except.ok 0)
  else send_loop (chunk_array embeds 10) mention fails 0 0

/-! ### One cycle (`run_once`, src/main.js:249-279) -/

/-- `state.notified_keys[key] = ...` on a well-formed mapping: overwrite
if present, append otherwise. -/
def state_insert (m : StateMap) (key ts : String) : StateMap :=
  if m.any (fun p => p.1 == key) then
    m.map (fun p => if p.1 == key then (p.1, ts) else p)
  else
    m ++ [(key, ts)]

/-- `run_once` (src/main.js:249-279) from the loaded state mapping and the
two adapters' merged outputs.  First component: the mapping passed to
`save_state`, or `none` when `save_state` is never reached — on the early
return for no new items, and when a batch POST throws (the `try/catch`
around the cycle catches it after the state update and save are skipped).
Second component: the POSTs attempted. -/
def run_once (m : StateMap) (epic_items steam_items : List Item)
    (mention : Option String) (fails : Nat → Bool) (now_iso : String) :
    Option StateMap × List (Payload Embed) :=
  let items := epic_items ++ steam_items
  let new_items := filter_new_items items m
  if new_items.isEmpty then (none, [])
  else
    let embeds := build_discord_embeds new_items
    let r := send_discord_embeds embeds mention fails
    match r.2 with
    | Except.error _ => (none, r.1)
    | Except.ok _ =>
      let m2 := new_items.foldl
        (fun acc t => if t.internal_key != "" then state_insert acc t.internal_key now_iso else acc) m
      (some m2, r.1)

/-! ### Check interval (src/main.js:240-241) -/

/-- A JS number that may be NaN (`none`). -/
abbrev JsNumber := Option ℚ

/-- `Number(process.env.CHECK_INTERVAL_HOURS || 6)` (src/main.js:240).
The argument models the variable after `Number` conversion: `none` is an
unset or empty (falsy) variable, in which case `Number(6) = 6`;
`some v` is a set non-empty string converting to `v`, where `v = none` is
a non-numeric string (NaN). -/
def interval_hours_of (env : Option JsNumber) : JsNumber :=
  match env with
  | none => some 6
  | some v => v

/-- `Math.max(1, h)`: NaN propagates, otherwise the floor at 1. -/
def js_max_one : JsNumber → JsNumber
  | none => none
  | some q => some (max 1 q)

/-- `Math.max(1, interval_hours) * 60 * 60 * 1000` (src/main.js:241). -/
def effective_interval_ms (env : Option JsNumber) : JsNumber :=
  (js_max_one (interval_hours_of env)).map (fun q => q * (60 * 60 * 1000))

/-- The batch sizes `chunk_array` produces from an input of length `n`,
computed with the same fuel pattern. -/
def chunk_sizes_loop (size : Nat) : Nat → Nat → List Nat
  | _, 0 => []
  | 0, _ + 1 => []
  | fuel + 1, n + 1 => min size (n + 1) :: chunk_sizes_loop size fuel (n + 1 - size)

/-- Batch sizes by input length: `min size` of what remains, until empty. -/
def chunk_sizes (n size : Nat) : List Nat :=
  if size = 0 then [] else chunk_sizes_loop size n n

/-! ### Lemmas about chunking -/

theorem chunk_loop_nil {α : Type} (size fuel : Nat) :
    chunk_loop size fuel ([] : List α) = [] := by
  cases fuel <;> rfl

theorem chunk_loop_irrel {α : Type} (size : Nat) (hs : 0 < size) :
    ∀ (fuel fuel' : Nat) (l : List α), l.length ≤ fuel → l.length ≤ fuel' →
      chunk_loop size fuel l = chunk_loop size fuel' l := by
  intro fuel
  induction fuel with
  | zero =>
    intro fuel' l hl _
    have : l = [] := List.eq_nil_of_length_eq_zero (Nat.le_zero.mp hl)
    subst this
    rw [chunk_loop_nil, chunk_loop_nil]
  | succ fuel ih =>
    intro fuel' l hl hl'
    cases l with
    | nil => rw [chunk_loop_nil, chunk_loop_nil]
    | cons x xs =>
      cases fuel' with
      | zero => simp at hl'
      | succ fuel'' =>
        show (x :: xs).take size :: chunk_loop size fuel ((x :: xs).drop size)
            = (x :: xs).take size :: chunk_loop size fuel'' ((x :: xs).drop size)
        have hd : ((x :: xs).drop size).length ≤ xs.length := by
          simp only [List.length_drop, List.length_cons]
          omega
        have h1 : ((x :: xs).drop size).length ≤ fuel := by
          have : xs.length ≤ fuel := Nat.succ_le_succ_iff.mp hl
          omega
        have h2 : ((x :: xs).drop size).length ≤ fuel'' := by
          have : xs.length ≤ fuel'' := Nat.succ_le_succ_iff.mp hl'
          omega
        rw [ih fuel'' _ h1 h2]

theorem chunk_array_nil {α : Type} (size : Nat) :
    chunk_array ([] : List α) size = [] := by
  unfold chunk_array
  split
  · rfl
  · exact chunk_loop_nil size 0

theorem chunk_array_cons {α : Type} (size : Nat) (hs : 0 < size) (x : α) (xs : List α) :
    chunk_array (x :: xs) size
      = (x :: xs).take size :: chunk_array ((x :: xs).drop size) size := by
  have hns : ¬ size = 0 := Nat.pos_iff_ne_zero.mp hs
  unfold chunk_array
  rw [if_neg hns, if_neg hns]
  show (x :: xs).take size :: chunk_loop size xs.length ((x :: xs).drop size)
      = (x :: xs).take size :: chunk_loop size ((x :: xs).drop size).length ((x :: xs).drop size)
  have hd : ((x :: xs).drop size).length ≤ xs.length := by
    simp only [List.length_drop, List.length_cons]
    omega
  rw [chunk_loop_irrel size hs xs.length ((x :: xs).drop size).length _ hd le_rfl]

theorem chunk_array_join_aux {α : Type} (size : Nat) (hs : 0 < size) :
    ∀ (n : Nat) (l : List α), l.length ≤ n → (chunk_array l size).flatten = l := by
  intro n
  induction n with
  | zero =>
    intro l hl
    have : l = [] := List.eq_nil_of_length_eq_zero (Nat.le_zero.mp hl)
    subst this
    rw [chunk_array_nil]
    rfl
  | succ n ih =>
    intro l hl
    cases l with
    | nil => rw [chunk_array_nil]; rfl
    | cons x xs =>
      rw [chunk_array_cons size hs, List.flatten_cons]
      have hd : ((x :: xs).drop size).length ≤ n := by
        simp only [List.length_drop, List.length_cons]
        have : xs.length ≤ n := Nat.succ_le_succ_iff.mp hl
        omega
      rw [ih _ hd, List.take_append_drop]

theorem chunk_array_join {α : Type} (size : Nat) (hs : 0 < size) (l : List α) :
    (chunk_array l size).flatten = l :=
  chunk_array_join_aux size hs l.length l le_rfl

theorem chunk_array_mem_length_aux {α : Type} (size : Nat) (hs : 0 < size) :
    ∀ (n : Nat) (l : List α) (c : List α), l.length ≤ n → c ∈ chunk_array l size →
      c.length ≤ size := by
  intro n
  induction n with
  | zero =>
    intro l c hl hc
    have : l = [] := List.eq_nil_of_length_eq_zero (Nat.le_zero.mp hl)
    subst this
    rw [chunk_array_nil] at hc
    simp at hc
  | succ n ih =>
    intro l c hl hc
    cases l with
    | nil => rw [chunk_array_nil] at hc; simp at hc
    | cons x xs =>
      rw [chunk_array_cons size hs] at hc
      rcases List.mem_cons.mp hc with h | h
      · subst h
        simp only [List.length_take]
        omega
      · have hd : ((x :: xs).drop size).length ≤ n := by
          simp only [List.length_drop, List.length_cons]
          have : xs.length ≤ n := Nat.succ_le_succ_iff.mp hl
          omega
        exact ih _ c hd h

theorem chunk_array_mem_length {α : Type} (size : Nat) (hs : 0 < size) (l : List α)
    (c : List α) (hc : c ∈ chunk_array l size) : c.length ≤ size :=
  chunk_array_mem_length_aux size hs l.length l c le_rfl hc

theorem chunk_sizes_loop_irrel (size : Nat) (hs : 0 < size) :
    ∀ (fuel fuel' n : Nat), n ≤ fuel → n ≤ fuel' →
      chunk_sizes_loop size fuel n = chunk_sizes_loop size fuel' n := by
  intro fuel
  induction fuel with
  | zero =>
    intro fuel' n hn _
    have : n = 0 := Nat.le_zero.mp hn
    subst this
    cases fuel' <;> rfl
  | succ fuel ih =>
    intro fuel' n hn hn'
    cases n with
    | zero => cases fuel' <;> rfl
    | succ m =>
      cases fuel' with
      | zero => simp at hn'
      | succ fuel'' =>
        show min size (m + 1) :: chunk_sizes_loop size fuel (m + 1 - size)
            = min size (m + 1) :: chunk_sizes_loop size fuel'' (m + 1 - size)
        have h1 : m + 1 - size ≤ fuel := by omega
        have h2 : m + 1 - size ≤ fuel'' := by omega
        rw [ih fuel'' _ h1 h2]

theorem chunk_array_map_length_aux {α : Type} (size : Nat) (hs : 0 < size) :
    ∀ (n : Nat) (l : List α), l.length ≤ n →
      (chunk_array l size).map List.length = chunk_sizes l.length size := by
  intro n
  induction n with
  | zero =>
    intro l hl
    have : l = [] := List.eq_nil_of_length_eq_zero (Nat.le_zero.mp hl)
    subst this
    rw [chunk_array_nil]
    show ([] : List Nat) = chunk_sizes 0 size
    unfold chunk_sizes
    split <;> rfl
  | succ n ih =>
    intro l hl
    cases l with
    | nil =>
      rw [chunk_array_nil]
      show ([] : List Nat) = chunk_sizes 0 size
      unfold chunk_sizes
      split <;> rfl
    | cons x xs =>
      have hns : ¬ size = 0 := Nat.pos_iff_ne_zero.mp hs
      rw [chunk_array_cons size hs, List.map_cons]
      have hd : ((x :: xs).drop size).length ≤ n := by
        simp only [List.length_drop, List.length_cons]
        have : xs.length ≤ n := Nat.succ_le_succ_iff.mp hl
        omega
      rw [ih _ hd]
      simp only [List.length_take, List.length_cons, List.length_drop, chunk_sizes,
        if_neg hns]
      have hfuel : chunk_sizes_loop size (xs.length + 1 - size) (xs.length + 1 - size)
          = chunk_sizes_loop size xs.length (xs.length + 1 - size) :=
        chunk_sizes_loop_irrel size hs _ _ _ le_rfl (by omega)
      rw [hfuel]
      rfl

theorem chunk_array_map_length {α : Type} (size : Nat) (hs : 0 < size) (l : List α) :
    (chunk_array l size).map List.length = chunk_sizes l.length size :=
  chunk_array_map_length_aux size hs l.length l le_rfl

/-! ### Lemmas about the delivery loop -/

theorem mk_payload_embeds {α : Type} (b : List α) (mention : Option String) (i : Nat) :
    (mk_payload b mention i).embeds = b := by
  cases mention with
  | none => rfl
  | some r =>
    simp only [mk_payload]
    split <;> rfl

theorem mk_payload_content {α : Type} (b : List α) (r : String) (i : Nat) :
    (mk_payload b (some r) i).content
      = if (r != "" && i == 0) = true then some ("<@&" ++ r ++ ">") else none := by
  simp only [mk_payload]
  split <;> rfl

theorem send_loop_no_fail_embeds {α : Type} (mention : Option String) :
    ∀ (batches : List (List α)) (i d : Nat),
      (send_loop batches mention (fun _ => false) i d).1.map Payload.embeds = batches := by
  intro batches
  induction batches with
  | nil => intro i d; rfl
  | cons b rest ih =>
    intro i d
    show ((mk_payload b mention i :: (send_loop rest mention (fun _ => false) (i + 1)
        (d + b.length)).1).map Payload.embeds) = b :: rest
    rw [List.map_cons, mk_payload_embeds, ih]

theorem send_loop_no_fail_content {α : Type} (r : String) (hr : r ≠ "") :
    ∀ (batches : List (List α)) (i d j : Nat) (p : Payload α),
      (send_loop batches (some r) (fun _ => false) i d).1.get? j = some p →
      (p.content.isSome ↔ i + j = 0) := by
  intro batches
  induction batches with
  | nil =>
    intro i d j p hp
    simp [send_loop] at hp
  | cons b rest ih =>
    intro i d j p hp
    cases j with
    | zero =>
      have : p = mk_payload b (some r) i := by
        simpa [send_loop] using hp.symm
      subst this
      rw [mk_payload_content]
      by_cases hi : i = 0
      · subst hi
        simp [hr]
      · simp [hi]
    | succ j' =>
      have hp' : (send_loop rest (some r) (fun _ => false) (i + 1)
          (d + b.length)).1.get? j' = some p := by
        simpa [send_loop] using hp
      have := ih (i + 1) (d + b.length) j' p hp'
      rw [this]
      omega

/-- Claim C2: delivery splits any message list into ordered batches of at
most 10, delivered sequentially in input order (their concatenation is the
input); 23 messages yield exactly the batch sizes 10, 10, 3; and with a
truthy mention id configured, only the first batch's payload carries the
mention content. -/
theorem C2_batching {α : Type} (msgs : List α) (r : String) (hr : r ≠ "") :
    ((send_discord_embeds msgs (some r) (fun _ => false)).1.map Payload.embeds
        = chunk_array msgs 10)
  ∧ (chunk_array msgs 10).flatten = msgs
  ∧ (∀ c ∈ chunk_array msgs 10, c.length ≤ 10)
  ∧ (msgs.length = 23 →
      (send_discord_embeds msgs (some r) (fun _ => false)).1.map
          (fun p => p.embeds.length) = [10, 10, 3])
  ∧ (∀ (j : Nat) (p : Payload α),
      (send_discord_embeds msgs (some r) (fun _ => false)).1.get? j = some p →
      (p.content.isSome ↔ j = 0)) := by
  have hmap : (send_discord_embeds msgs (some r) (fun _ => false)).1.map Payload.embeds
      = chunk_array msgs 10 := by
    unfold send_discord_embeds
    by_cases hnil : msgs.isEmpty
    · have : msgs = [] := List.isEmpty_iff.mp hnil
      subst this
      rw [chunk_array_nil]
      rfl
    · rw [if_neg hnil]
      exact send_loop_no_fail_embeds (some r) (chunk_array msgs 10) 0 0
  refine ⟨hmap, chunk_array_join 10 (by omega) msgs,
    fun c hc => chunk_array_mem_length 10 (by omega) msgs c hc, ?_, ?_⟩
  · intro h23
    have : (send_discord_embeds msgs (some r) (fun _ => false)).1.map
        (fun p => p.embeds.length)
        = ((send_discord_embeds msgs (some r) (fun _ => false)).1.map Payload.embeds).map
            List.length := by
      rw [List.map_map]
      rfl
    rw [this, hmap, chunk_array_map_length 10 (by omega) msgs, h23]
    decide
  · intro j p hp
    by_cases hnil : msgs.isEmpty
    · have : msgs = [] := List.isEmpty_iff.mp hnil
      subst this
      simp [send_discord_embeds] at hp
    · have hsend : send_discord_embeds msgs (some r) (fun _ => false)
          = send_loop (chunk_array msgs 10) (some r) (fun _ => false) 0 0 := by
        unfold send_discord_embeds
        rw [if_neg hnil]
      rw [hsend] at hp
      have := send_loop_no_fail_content r hr (chunk_array msgs 10) 0 0 j p hp
      rw [this]
      omega

/-- Witness for C2 at 23 concrete messages and mention id `role1`. -/
theorem C2_batching_witness :
    ("role1" : String) ≠ ""
  ∧ ((send_discord_embeds (List.range 23) (some "role1") (fun _ => false)).1.map
        (fun p => p.embeds.length) = [10, 10, 3]) := by
  refine ⟨by decide, ?_⟩
  exact (C2_batching (List.range 23) "role1" (by decide)).2.2.2.1 (by decide)

theorem send_loop_all_ok {α : Type} (mention : Option String) (fails : Nat → Bool) :
    ∀ (batches : List (List α)) (i d : Nat),
      (∀ j, j < batches.length → fails (i + j) = false) →
      (send_loop batches mention fails i d).2
        = Except.ok (d + (batches.map List.length).sum) := by
  intro batches
  induction batches with
  | nil => intro i d _; simp [send_loop]
  | cons b rest ih =>
    intro i d h
    have h0 : fails i = false := by
      have := h 0 (by simp)
      simpa using this
    show (if fails i = true then _ else _ : List (Payload α) × Except Nat Nat).2 = _
    rw [h0]
    simp only [Bool.false_eq_true, if_false]
    have hrest : ∀ j, j < rest.length → fails (i + 1 + j) = false := by
      intro j hj
      have := h (j + 1) (by simpa using Nat.succ_lt_succ hj)
      simpa [Nat.add_assoc, Nat.add_comm 1 j] using this
    rw [ih (i + 1) (d + b.length) hrest]
    simp [List.sum_cons, Nat.add_assoc]

theorem send_loop_fail {α : Type} (mention : Option String) (fails : Nat → Bool) :
    ∀ (batches : List (List α)) (i d k : Nat),
      k < batches.length → fails (i + k) = true →
      (∀ j, j < k → fails (i + j) = false) →
      (send_loop batches mention fails i d).2
        = Except.error (d + ((batches.take k).map List.length).sum) := by
  intro batches
  induction batches with
  | nil => intro i d k hk _ _; simp at hk
  | cons b rest ih =>
    intro i d k hk hfail hok
    cases k with
    | zero =>
      have h0 : fails i = true := by simpa using hfail
      show (if fails i = true then _ else _ : List (Payload α) × Except Nat Nat).2 = _
      rw [h0]
      simp
    | succ k' =>
      have h0 : fails i = false := by
        have := hok 0 (Nat.succ_pos k')
        simpa using this
      show (if fails i = true then _ else _ : List (Payload α) × Except Nat Nat).2 = _
      rw [h0]
      simp only [Bool.false_eq_true, if_false]
      have hk' : k' < rest.length := Nat.succ_lt_succ_iff.mp hk
      have hfail' : fails (i + 1 + k') = true := by
        have : i + (k' + 1) = i + 1 + k' := by omega
        rw [← this]
        exact hfail
      have hok' : ∀ j, j < k' → fails (i + 1 + j) = false := by
        intro j hj
        have : i + (j + 1) = i + 1 + j := by omega
        rw [← this]
        exact hok (j + 1) (Nat.succ_lt_succ hj)
      rw [ih (i + 1) (d + b.length) k' hk' hfail' hok']
      simp [List.sum_cons, Nat.add_assoc]

/-- Claim C9: the count `send_discord_embeds` reports reflects exactly the
batches that completed.  With an empty message list it returns 0 delivered
and attempts no POST; when every batch call succeeds it reports the full
message count; and when the first failing batch is the `k`-th, the
`delivered` counter at the moment the error escapes the loop is the total
size of the `k` batches completed before it (the thrown error itself
carries no count to the caller). -/
theorem C9_delivered_count {α : Type} (msgs : List α) (mention : Option String)
    (fails : Nat → Bool) :
    (msgs = [] → send_discord_embeds msgs mention fails = ([], Except.ok 0))
  ∧ ((∀ j, j < (chunk_array msgs 10).length → fails j = false) →
      (send_discord_embeds msgs mention fails).2 = Except.ok msgs.length)
  ∧ (∀ k, k < (chunk_array msgs 10).length → fails k = true →
      (∀ j, j < k → fails j = false) →
      (send_discord_embeds msgs mention fails).2
        = Except.error ((((chunk_array msgs 10).take k).map List.length).sum)) := by
  refine ⟨?_, ?_, ?_⟩
  · intro h
    subst h
    rfl
  · intro hok
    by_cases hnil : msgs.isEmpty
    · have : msgs = [] := List.isEmpty_iff.mp hnil
      subst this
      rfl
    · have hsend : send_discord_embeds msgs mention fails
          = send_loop (chunk_array msgs 10) mention fails 0 0 := by
        unfold send_discord_embeds
        rw [if_neg hnil]
      rw [hsend, send_loop_all_ok mention fails (chunk_array msgs 10) 0 0
        (by intro j hj; simpa using hok j hj)]
      have : ((chunk_array msgs 10).map List.length).sum
          = ((chunk_array msgs 10).flatten).length := by
        rw [List.length_flatten]
      rw [Nat.zero_add, this, chunk_array_join 10 (by omega) msgs]
  · intro k hk hfail hok
    by_cases hnil : msgs.isEmpty
    · have : msgs = [] := List.isEmpty_iff.mp hnil
      subst this
      rw [chunk_array_nil] at hk
      simp at hk
    · have hsend : send_discord_embeds msgs mention fails
          = send_loop (chunk_array msgs 10) mention fails 0 0 := by
        unfold send_discord_embeds
        rw [if_neg hnil]
      rw [hsend, send_loop_fail mention fails (chunk_array msgs 10) 0 0 k hk
        (by simpa using hfail) (by intro j hj; simpa using hok j hj)]
      rw [Nat.zero_add]

/-- Witness for C9: the empty list sends nothing; 12 messages with every
POST succeeding report 12 delivered; 12 messages whose second POST fails
leave the counter at the 10 messages of the completed first batch. -/
theorem C9_delivered_count_witness :
    (send_discord_embeds ([] : List Nat) none (fun _ => false) = ([], Except.ok 0))
  ∧ (send_discord_embeds (List.range 12) none (fun _ => false)).2 = Except.ok 12
  ∧ (send_discord_embeds (List.range 12) none (fun i => decide (i = 1))).2
      = Except.error 10 := by
  refine ⟨(C9_delivered_count ([] : List Nat) none (fun _ => false)).1 rfl, ?_, ?_⟩
  · have h := (C9_delivered_count (List.range 12) none (fun _ => false)).2.1
      (by intro j _; rfl)
    exact h.trans (congrArg Except.ok (by decide))
  · have h := (C9_delivered_count (List.range 12) none (fun i => decide (i = 1))).2.2 1
      (by decide)
      (by decide)
      (by
        intro j hj
        have : j = 0 := by omega
        subst this
        decide)
    exact h.trans (congrArg Except.error (by decide))

theorem filter_keeps_unseen (items : List Item) (m : StateMap) :
    ∀ it ∈ items, state_has m (derive_item_key it) = false →
      derive_item_key it ∈ (filter_new_items items m).map TaggedItem.internal_key := by
  induction items with
  | nil => intro it hit _; simp at hit
  | cons i rest ih =>
    intro it hit hunseen
    rcases List.mem_cons.mp hit with h | h
    · subst h
      show derive_item_key it
          ∈ (if state_has m (derive_item_key it) then filter_new_items rest m
              else ⟨it, derive_item_key it⟩ :: filter_new_items rest m).map
            TaggedItem.internal_key
      rw [hunseen]
      simp
    · have hmem := ih it h hunseen
      show derive_item_key it
          ∈ (if state_has m (derive_item_key i) then filter_new_items rest m
              else ⟨i, derive_item_key i⟩ :: filter_new_items rest m).map
            TaggedItem.internal_key
      by_cases hc : state_has m (derive_item_key i)
      · rw [if_pos hc]
        exact hmem
      · rw [if_neg hc]
        simp only [List.map_cons, List.mem_cons]
        exact Or.inr hmem

/-- Claim C5: when a delivery batch call fails, the error escapes
`send_discord_embeds`, is caught only by the cycle's top-level handler, and
the persisted state is never written for that cycle (`run_once` reaches no
`save_state` call); consequently every item whose key was not recorded
before the cycle is still absent from the state and is selected again by
the change filter on identical inputs. -/
theorem C5_delivery_failure (m : StateMap) (epic steam : List Item)
    (mention : Option String) (fails : Nat → Bool) (now_iso : String) (e : Nat)
    (hfail : (send_discord_embeds
        (build_discord_embeds (filter_new_items (epic ++ steam) m)) mention fails).2
      = Except.error e) :
    (run_once m epic steam mention fails now_iso).1 = none
  ∧ (∀ it ∈ epic ++ steam, state_has m (derive_item_key it) = false →
      derive_item_key it ∈ (filter_new_items (epic ++ steam) m).map TaggedItem.internal_key) := by
  refine ⟨?_, filter_keeps_unseen (epic ++ steam) m⟩
  unfold run_once
  by_cases hnil : (filter_new_items (epic ++ steam) m).isEmpty
  · rw [if_pos hnil]
  · rw [if_neg hnil]
    simp only [hfail]

/-- Witness for C5: one unseen item, empty state, every POST failing — the
cycle persists nothing. -/
theorem C5_delivery_failure_witness :
    (run_once []
      [⟨"Epic Games", "G", "https://store.epicgames.com/en-US/p/g", none, "Free", none⟩]
      [] none (fun _ => true) "2026-01-01T00:00:00.000Z").1 = none :=
  (C5_delivery_failure []
    [⟨"Epic Games", "G", "https://store.epicgames.com/en-US/p/g", none, "Free", none⟩]
    [] none (fun _ => true) "2026-01-01T00:00:00.000Z" 0 rfl).1

theorem filter_new_items_eq (items : List Item) (m : StateMap) :
    filter_new_items items m
      = (items.filter (fun it => !state_has m (derive_item_key it))).map
          (fun it => ⟨it, derive_item_key it⟩) := by
  induction items with
  | nil => rfl
  | cons i rest ih =>
    show (if state_has m (derive_item_key i) then filter_new_items rest m
          else ⟨i, derive_item_key i⟩ :: filter_new_items rest m) = _
    rw [List.filter_cons]
    by_cases hc : state_has m (derive_item_key i)
    · rw [if_pos hc, ih]
      simp [hc]
    · rw [if_neg hc, ih]
      simp [hc]

/-- Claim C6: the change filter returns exactly the order-preserving
subsequence of input items whose derived key is absent from the state,
each tagged with its resolved key; as a pure function of `items` and `m`
it neither alters the items (each survivor embeds its input item
unchanged) nor the state. -/
theorem C6_change_filter (items : List Item) (m : StateMap) :
    (filter_new_items items m
      = (items.filter (fun it => !state_has m (derive_item_key it))).map
          (fun it => ⟨it, derive_item_key it⟩))
  ∧ List.Sublist ((filter_new_items items m).map TaggedItem.item) items
  ∧ (∀ t ∈ filter_new_items items m,
      t.internal_key = derive_item_key t.item ∧ state_has m t.internal_key = false) := by
  refine ⟨filter_new_items_eq items m, ?_, ?_⟩
  · rw [filter_new_items_eq, List.map_map]
    have hid : (TaggedItem.item ∘ fun it => (⟨it, derive_item_key it⟩ : TaggedItem))
        = id := rfl
    rw [hid, List.map_id]
    exact List.filter_sublist _
  · intro t ht
    rw [filter_new_items_eq] at ht
    obtain ⟨it, hit, rfl⟩ := List.mem_map.mp ht
    refine ⟨rfl, ?_⟩
    have := List.of_mem_filter hit
    simpa using this

/-- Claim C10: two items of one run that derive the same key, not yet in
the state, both pass the change filter — deduplication happens only
against the persisted state, not within the batch. -/
theorem C10_within_run_duplicates (i1 i2 : Item) (m : StateMap)
    (hk : derive_item_key i1 = derive_item_key i2)
    (hm : state_has m (derive_item_key i1) = false) :
    filter_new_items [i1, i2] m
      = [⟨i1, derive_item_key i1⟩, ⟨i2, derive_item_key i2⟩] := by
  have hm2 : state_has m (derive_item_key i2) = false := hk ▸ hm
  simp [filter_new_items, hm, hm2]

/-- Witness for C10: two Steam items for app 42 under different slugs
derive the same key and are both returned against the empty state. -/
theorem C10_within_run_duplicates_witness :
    filter_new_items
      [⟨"Steam", "A", "https://store.steampowered.com/app/42/Foo/", none, "Free", none⟩,
       ⟨"Steam", "B", "https://store.steampowered.com/app/42/Bar/", none, "Free", none⟩] []
    = [⟨⟨"Steam", "A", "https://store.steampowered.com/app/42/Foo/", none, "Free", none⟩,
        "steam_app_42"⟩,
       ⟨⟨"Steam", "B", "https://store.steampowered.com/app/42/Bar/", none, "Free", none⟩,
        "steam_app_42"⟩] := by
  have h := C10_within_run_duplicates
    ⟨"Steam", "A", "https://store.steampowered.com/app/42/Foo/", none, "Free", none⟩
    ⟨"Steam", "B", "https://store.steampowered.com/app/42/Bar/", none, "Free", none⟩
    [] (by decide) (by decide)
  exact h.trans (by decide)

/-- A parseable state file whose `notified_keys` is JSON `null`:
structurally invalid content for the persisted-state shape. -/
def null_keys_json : Json := Json.jobj [("notified_keys", Json.jnull)]

/-- Counterexample to C4 as stated: the file content
`\x7b"notified_keys": null\x7d` is structurally invalid (its `notified_keys`
is no mapping), yet `load_state` passes it through unchanged — JS
`typeof null === 'object'` satisfies the validity check — instead of
returning the empty-but-valid state. -/
theorem C4_counterexample :
    load_state (FileRead.content (some null_keys_json)) = null_keys_json
  ∧ load_state (FileRead.content (some null_keys_json)) ≠ empty_state := by
  refine ⟨rfl, ?_⟩
  intro h
  have h1 : [("notified_keys", Json.jnull)] = [("notified_keys", Json.jobj [])] :=
    Json.jobj.inj h
  have h2 := List.cons.inj h1
  have h3 := Prod.mk.inj h2.1
  exact Json.noConfusion h3.2

/-- Claim C4, amended: `load_state` is total (never raises) and returns
the empty-but-valid state on a missing file, a read error, unparseable
content, and any parsed value failing its shape check; but a parsed value
that is truthy, of JS object type, and whose `notified_keys` field is of
JS object type — which `null` and arrays also satisfy — is returned
as-is even when it is not a well-formed state. -/
theorem C4_load_state_corrected (r : FileRead) :
    load_state r = empty_state
  ∨ (∃ j, r = FileRead.content (some j)
      ∧ load_state r = j
      ∧ js_truthy j = true
      ∧ js_typeof_object j = true
      ∧ js_typeof_object_opt (jlookup j "notified_keys") = true) := by
  cases r with
  | missing => exact Or.inl rfl
  | readError => exact Or.inl rfl
  | content o =>
    cases o with
    | none => exact Or.inl rfl
    | some j =>
      by_cases h : (js_truthy j && js_typeof_object j
          && js_typeof_object_opt (jlookup j "notified_keys")) = true
      · right
        refine ⟨j, rfl, ?_, ?_, ?_, ?_⟩
        · show (if js_truthy j && js_typeof_object j
              && js_typeof_object_opt (jlookup j "notified_keys") then j else empty_state)
            = j
          rw [if_pos h]
        · have := (Bool.and_eq_true _ _).mp h
          exact ((Bool.and_eq_true _ _).mp this.1).1
        · have := (Bool.and_eq_true _ _).mp h
          exact ((Bool.and_eq_true _ _).mp this.1).2
        · exact ((Bool.and_eq_true _ _).mp h).2
      · left
        show (if js_truthy j && js_typeof_object j
            && js_typeof_object_opt (jlookup j "notified_keys") then j else empty_state)
          = empty_state
        rw [if_neg h]

/-- Claim C7: a successful `save_state` followed by `load_state` on the
same path reconstructs the saved mapping — the loaded document equals the
encoded state, and its `notified_keys` member is exactly the saved
key-to-record mapping. -/
theorem C7_round_trip (m : StateMap) :
    load_state (save_state m) = encode_state m
  ∧ jlookup (load_state (save_state m)) "notified_keys"
      = some (Json.jobj (m.map (fun p =>
          (p.1, Json.jobj [("notified_at", Json.jstr p.2)])))) := by
  have hlook : jlookup (encode_state m) "notified_keys"
      = some (Json.jobj (m.map (fun p =>
          (p.1, Json.jobj [("notified_at", Json.jstr p.2)])))) := by
    simp [jlookup, encode_state, List.find?]
  have h1 : load_state (save_state m) = encode_state m := by
    show (if js_truthy (encode_state m) && js_typeof_object (encode_state m)
        && js_typeof_object_opt (jlookup (encode_state m) "notified_keys")
        then encode_state m else empty_state) = encode_state m
    rw [hlook]
    rfl
  exact ⟨h1, h1 ▸ hlook⟩

/-- Counterexample to C8 as stated: a configured value that is not a
number (for example `CHECK_INTERVAL_HOURS=abc`, whose `Number` conversion
is NaN) yields a NaN interval — `Math.max(1, NaN)` is NaN — so the
effective interval is not floored at 1 hour for every configured value. -/
theorem C8_counterexample :
    effective_interval_ms (some (none : JsNumber)) = none
  ∧ ¬ ∃ q : ℚ, effective_interval_ms (some (none : JsNumber)) = some q
        ∧ 3600000 ≤ q := by
  refine ⟨rfl, ?_⟩
  rintro ⟨q, hq, _⟩
  exact Option.noConfusion hq

/-- Claim C8, amended: the interval defaults to 6 hours when the variable
is unset (or empty, hence falsy); every configured value that converts to
a number is floored at 1 hour, so the effective interval is at least
3600000 ms; but a non-numeric configured value converts to NaN, which
`Math.max` propagates, leaving the interval NaN rather than floored. -/
theorem C8_interval_corrected (q : ℚ) :
    effective_interval_ms none = some 21600000
  ∧ effective_interval_ms (some (some q)) = some (max 1 q * 3600000)
  ∧ (∃ r : ℚ, effective_interval_ms (some (some q)) = some r ∧ 3600000 ≤ r)
  ∧ effective_interval_ms (some (none : JsNumber)) = none := by
  refine ⟨?_, ?_, ?_, rfl⟩
  · show some ((max 1 (6 : ℚ)) * (60 * 60 * 1000)) = some 21600000
    norm_num
  · show some ((max 1 q) * (60 * 60 * 1000)) = some (max 1 q * 3600000)
    norm_num
  · refine ⟨max 1 q * 3600000, ?_, ?_⟩
    · show some ((max 1 q) * (60 * 60 * 1000)) = some (max 1 q * 3600000)
      norm_num
    · have h1 : (1 : ℚ) ≤ max 1 q := le_max_left 1 q
      nlinarith [h1]

theorem process_offer_isSome_iff (o : Offer) (now : Int) :
    (process_offer now o).isSome = true
      ↔ (has_active_zero o now = true ∧ (resolve_page_slug o).isSome = true) := by
  unfold process_offer has_active_zero
  cases hf : (o.promotionalOffers.flatMap id).find? (is_active_zero now) with
  | none =>
    constructor
    · intro h
      simp at h
    · rintro ⟨hany, -⟩
      obtain ⟨w, hw, hwp⟩ := List.any_eq_true.mp hany
      have := List.find?_eq_none.mp hf w hw
      exact absurd hwp this
  | some a =>
    have hany : (o.promotionalOffers.flatMap id).any (is_active_zero now) = true :=
      List.any_eq_true.mpr ⟨a, List.mem_of_find?_eq_some hf, List.find?_some hf⟩
    cases hs : resolve_page_slug o with
    | none =>
      constructor
      · intro h
        simp at h
      · rintro ⟨-, hslug⟩
        simp at hslug
    | some slug =>
      constructor
      · intro _
        exact ⟨hany, rfl⟩
      · intro _
        rfl

theorem map_insert_mem (m : List (String × Item)) (k : String) (v : Item)
    (p : String × Item) (hp : p ∈ map_insert m k v) : p ∈ m ∨ p.2 = v := by
  unfold map_insert at hp
  by_cases hc : m.any (fun q => q.1 == k)
  · rw [if_pos hc] at hp
    obtain ⟨q, hq, hpq⟩ := List.mem_map.mp hp
    by_cases hqk : (q.1 == k) = true
    · right
      rw [← hpq]
      simp [hqk]
    · left
      rw [← hpq]
      simp only [hqk, Bool.false_eq_true, if_false]
      exact hq
  · rw [if_neg hc] at hp
    rcases List.mem_append.mp hp with h | h
    · exact Or.inl h
    · right
      have : p = (k, v) := by simpa using h
      rw [this]

theorem fold_insert_mem :
    ∀ (l : List Item) (m : List (String × Item)) (p : String × Item),
      p ∈ l.foldl (fun acc r => map_insert acc r.url r) m → p ∈ m ∨ p.2 ∈ l := by
  intro l
  induction l with
  | nil => intro m p hp; exact Or.inl hp
  | cons r rest ih =>
    intro m p hp
    rcases ih (map_insert m r.url r) p hp with h | h
    · rcases map_insert_mem m r.url r p h with h2 | h2
      · exact Or.inl h2
      · right
        rw [h2]
        simp
    · right
      exact List.mem_cons_of_mem r h

theorem fetch_epic_mem (offers : List Offer) (now : Int) (it : Item)
    (hit : it ∈ fetch_epic_freebies offers now) :
    ∃ o2, o2 ∈ offers ∧ process_offer now o2 = some it := by
  unfold fetch_epic_freebies at hit
  obtain ⟨p, hp, rfl⟩ := List.mem_map.mp hit
  rcases fold_insert_mem _ [] p hp with h | h
  · simp at h
  · obtain ⟨o2, ho2, heq⟩ := List.mem_filterMap.mp h
    exact ⟨o2, ho2, heq⟩

/-- Counterexample to C3 as stated: an offer with an active promotional
window (0 ≤ now < 100 at now = 50) whose discount is exactly 0 — which
the claim says must be selected — is excluded by the adapter because it
has neither a `p/`-prefixed product slug nor a `productHome` mapping, so
no page URL resolves. -/
theorem C3_counterexample :
    has_active_zero ⟨"Mystery Game", "", [], [], [[⟨some 0, some 100, some 0⟩]]⟩ 50 = true
  ∧ fetch_epic_freebies [⟨"Mystery Game", "", [], [], [[⟨some 0, some 100, some 0⟩]]⟩] 50
      = [] := by
  decide

/-- Claim C3, amended: the per-offer selection succeeds exactly when the
offer has some window with `start ≤ now < end` and discount exactly 0 AND
a page slug that resolves to a truthy (non-empty) string — from a truthy
`productSlug` starting `p/` and longer than just `p/`, or else a
`productHome` mapping with a truthy slug; the only-if direction of the
original claim survives at the adapter level — every returned item stems
from an offer with an active zero-discount window — subject to the
batch-level URL deduplication. -/
theorem C3_selection_corrected (offers : List Offer) (o : Offer) (now : Int) :
    ((process_offer now o).isSome = true
      ↔ (has_active_zero o now = true ∧ (resolve_page_slug o).isSome = true))
  ∧ (∀ it ∈ fetch_epic_freebies offers now,
      ∃ o2, o2 ∈ offers ∧ process_offer now o2 = some it
        ∧ has_active_zero o2 now = true) := by
  refine ⟨process_offer_isSome_iff o now, ?_⟩
  intro it hit
  obtain ⟨o2, ho2, heq⟩ := fetch_epic_mem offers now it hit
  refine ⟨o2, ho2, heq, ?_⟩
  have hsome : (process_offer now o2).isSome = true := by rw [heq]; rfl
  exact ((process_offer_isSome_iff o2 now).mp hsome).1

/-- Witness for C3 at a concrete selected offer. -/
theorem C3_selection_corrected_witness :
    ∃ o2, o2 ∈ [(⟨"Good Game", "p/good-game", [], [],
        [[⟨some 0, some 100, some 0⟩]]⟩ : Offer)]
      ∧ process_offer 50 o2
          = some ⟨"Epic Games", "Good Game",
              "https://store.epicgames.com/en-US/p/good-game", none, "Free", some 100⟩
      ∧ has_active_zero o2 50 = true :=
  (C3_selection_corrected
    [⟨"Good Game", "p/good-game", [], [], [[⟨some 0, some 100, some 0⟩]]⟩]
    ⟨"Good Game", "p/good-game", [], [], [[⟨some 0, some 100, some 0⟩]]⟩ 50).2
    ⟨"Epic Games", "Good Game",
      "https://store.epicgames.com/en-US/p/good-game", none, "Free", some 100⟩
    (by
      have hfetch : fetch_epic_freebies
          [⟨"Good Game", "p/good-game", [], [], [[⟨some 0, some 100, some 0⟩]]⟩] 50
          = [⟨"Epic Games", "Good Game",
              "https://store.epicgames.com/en-US/p/good-game", none, "Free", some 100⟩] := by
        decide
      rw [hfetch]
      exact List.mem_cons_self _ _)

theorem match_app_at_sound (l ds : List Char) (h : match_app_at l = some ds) :
    ds ≠ [] ∧ (∀ c ∈ ds, c.isDigit = true)
  ∧ ∃ post, l = ('/' :: 'a' :: 'p' :: 'p' :: '/' :: ds) ++ post := by
  unfold match_app_at at h
  by_cases htake : l.take 5 = ['/', 'a', 'p', 'p', '/']
  · rw [if_pos htake] at h
    by_cases hemp : ((l.drop 5).takeWhile Char.isDigit).isEmpty = true
    · rw [if_pos hemp] at h
      exact absurd h (by simp)
    · rw [if_neg hemp] at h
      have hds : ds = (l.drop 5).takeWhile Char.isDigit := (Option.some.inj h).symm
      subst hds
      refine ⟨?_, ?_, ?_⟩
      · intro hnil
        exact hemp (by rw [hnil]; rfl)
      · intro c hc
        exact List.mem_takeWhile_imp hc
      · refine ⟨(l.drop 5).dropWhile Char.isDigit, ?_⟩
        have hsplit : (l.drop 5).takeWhile Char.isDigit
            ++ (l.drop 5).dropWhile Char.isDigit = l.drop 5 :=
          List.takeWhile_append_dropWhile Char.isDigit (l.drop 5)
        calc l = l.take 5 ++ l.drop 5 := (List.take_append_drop 5 l).symm
          _ = ['/', 'a', 'p', 'p', '/']
              ++ ((l.drop 5).takeWhile Char.isDigit
                  ++ (l.drop 5).dropWhile Char.isDigit) := by rw [htake, hsplit]
          _ = ('/' :: 'a' :: 'p' :: 'p' :: '/' :: (l.drop 5).takeWhile Char.isDigit)
              ++ (l.drop 5).dropWhile Char.isDigit := by simp
  · rw [if_neg htake] at h
    exact absurd h (by simp)

theorem extract_app_id_aux_sound :
    ∀ (l ds : List Char), extract_app_id_aux l = some ds →
      ds ≠ [] ∧ (∀ c ∈ ds, c.isDigit = true)
    ∧ ∃ pre post, l = pre ++ ('/' :: 'a' :: 'p' :: 'p' :: '/' :: ds) ++ post := by
  intro l
  induction l with
  | nil =>
    intro ds h
    exact absurd h (by simp [extract_app_id_aux])
  | cons c rest ih =>
    intro ds h
    unfold extract_app_id_aux at h
    cases hm : match_app_at (c :: rest) with
    | some ds0 =>
      rw [hm] at h
      have : ds0 = ds := Option.some.inj h
      subst this
      obtain ⟨h1, h2, post, h3⟩ := match_app_at_sound (c :: rest) ds0 hm
      exact ⟨h1, h2, [], post, by simpa using h3⟩
    | none =>
      rw [hm] at h
      obtain ⟨h1, h2, pre, post, h3⟩ := ih ds h
      exact ⟨h1, h2, c :: pre, post, by simp [h3]⟩

/-- Counterexample to C1 as stated: a listing-source (Steam) item — for
which the claim requires the key `"<source>:<url>"` exactly — instead
derives the app-id key, because the code special-cases the Steam listing
source, not the feed source, and moreover spells it with a lowercase
`steam_` literal. -/
theorem C1_counterexample :
    derive_item_key ⟨"Steam", "Example",
        "https://store.steampowered.com/app/123/Example_Game/", none, "0", none⟩
      = "steam_app_123"
  ∧ derive_item_key ⟨"Steam", "Example",
        "https://store.steampowered.com/app/123/Example_Game/", none, "0", none⟩
      ≠ "Steam:https://store.steampowered.com/app/123/Example_Game/" := by
  decide

/-- Claim C1, amended: `derive_item_key` is a pure function of the item;
for the LISTING source (`Steam`) whose URL embeds `/app/<digits>`, the key
is the literal `steam_app_<id>` where `<id>` is the captured non-empty
digit run following an occurrence of `/app/` in the URL; every other item
— including every feed-source (`Epic Games`) item, whatever its URL, and
Steam items without an extractable id — keys as `"<source>:<url>"`. -/
theorem C1_derive_key_corrected (it : Item) :
    (it.source ≠ "Steam" → derive_item_key it = it.source ++ ":" ++ it.url)
  ∧ (extract_app_id it.url = none → derive_item_key it = it.source ++ ":" ++ it.url)
  ∧ (∀ ident, it.source = "Steam" → extract_app_id it.url = some ident →
      derive_item_key it = "steam_app_" ++ ident
      ∧ ident ≠ ""
      ∧ (∀ c ∈ ident.data, c.isDigit = true)
      ∧ ∃ pre post,
          it.url.data = pre ++ ('/' :: 'a' :: 'p' :: 'p' :: '/' :: ident.data) ++ post) := by
  refine ⟨?_, ?_, ?_⟩
  · intro h
    unfold derive_item_key
    rw [if_neg]
    simp [h]
  · intro h
    unfold derive_item_key
    by_cases hsrc : (it.source == "Steam") = true
    · rw [if_pos hsrc, h]
    · rw [if_neg hsrc]
  · intro ident hsrc hex
    have hkey : derive_item_key it = "steam_app_" ++ ident := by
      unfold derive_item_key
      rw [if_pos (by simp [hsrc]), hex]
    obtain ⟨ds, hds, hident⟩ := (Option.map_eq_some'.mp hex)
    obtain ⟨hne, hdig, pre, post, hdecomp⟩ := extract_app_id_aux_sound _ ds hds
    have hdata : ident.data = ds := by
      rw [← hident]
      rfl
    refine ⟨hkey, ?_, ?_, pre, post, ?_⟩
    · intro h0
      apply hne
      have := congrArg String.data h0
      rw [hdata] at this
      exact this
    · intro c hc
      rw [hdata] at hc
      exact hdig c hc
    · rw [hdata]
      exact hdecomp

/-- Witness for C1 at one Steam item with an embedded id and one feed
item. -/
theorem C1_derive_key_corrected_witness :
    derive_item_key ⟨"Steam", "A",
        "https://store.steampowered.com/app/123/Example_Game/", none, "Free", none⟩
      = "steam_app_" ++ "123"
  ∧ derive_item_key ⟨"Epic Games", "B", "https://store.epicgames.com/en-US/p/game",
        none, "Free", none⟩
      = "Epic Games" ++ ":" ++ "https://store.epicgames.com/en-US/p/game" :=
  ⟨((C1_derive_key_corrected ⟨"Steam", "A",
      "https://store.steampowered.com/app/123/Example_Game/", none, "Free", none⟩).2.2
      "123" rfl (by decide)).1,
   (C1_derive_key_corrected ⟨"Epic Games", "B", "https://store.epicgames.com/en-US/p/game",
      none, "Free", none⟩).1 (by decide)⟩

/-- Witness for C6 at one concrete unseen item: the surviving entry is
tagged with its derived key, which the empty state does not contain. -/
theorem C6_change_filter_witness :
    (⟨⟨"Epic Games", "G", "https://store.epicgames.com/en-US/p/g", none, "Free", none⟩,
      "Epic Games:https://store.epicgames.com/en-US/p/g"⟩ : TaggedItem).internal_key
      = derive_item_key
          ⟨"Epic Games", "G", "https://store.epicgames.com/en-US/p/g", none, "Free", none⟩
  ∧ state_has []
      (⟨⟨"Epic Games", "G", "https://store.epicgames.com/en-US/p/g", none, "Free", none⟩,
        "Epic Games:https://store.epicgames.com/en-US/p/g"⟩ : TaggedItem).internal_key
      = false :=
  (C6_change_filter
    [⟨"Epic Games", "G", "https://store.epicgames.com/en-US/p/g", none, "Free", none⟩]
    []).2.2
    ⟨⟨"Epic Games", "G", "https://store.epicgames.com/en-US/p/g", none, "Free", none⟩,
      "Epic Games:https://store.epicgames.com/en-US/p/g"⟩
    (by decide)

end FreebiesBot
